import Mathlib

/-!
Verification of the video_preview_app telemetry parser and timecode engine.

Shallow embedding of the two algorithmic cores of the repository:

* `parse_gpmf.py` — the GPMF binary container parser (`GPMFParser.parse_fourcc`,
  `GPMFParser.parse_size`, `GPMFParser.parse_gps_data`);
* `app.py` — the timecode conversion helpers (`timecode_to_seconds`,
  `seconds_to_timecode`, `seconds_to_srt_timecode`) and the interval
  adjustment / record-timeline layout inside `export_combined`.

Embedding conventions:

* Python `float` arithmetic is modelled exactly over `ℚ` (values arising in
  this program are decimal literals and small sums, so the rational model is
  the intended real-number semantics; IEEE-754 rounding noise is not modelled).
* Python byte strings are `List ℕ` (each entry a byte value).
* Python text strings are `List Char`.
* Python `round` is round-half-to-even (`pyround` below); Python `int()` on a
  float truncates toward zero (`pyIntTrunc`); Python `//` and `%` on integers
  are floor division and floor modulus (`Int.fdiv`, `Int.fmod`).
* A caught Python exception is modelled by the branch the handler returns;
  an uncaught exception is modelled with `Except`.
* The parser's `while` loop is driven by a fuel argument bounded by the number
  of unread bytes; every loop iteration advances the cursor by at least 8
  bytes, so the fuel `data.length - pos` never runs out before the loop's own
  exit conditions fire (`parseGo_fuel` below makes this precise).
-/

/-- Python `round`: round half to even (banker's rounding), on the exact
rational model of a Python float. -/
def pyround (q : ℚ) : ℤ :=
  if Int.fract q = 1 / 2 then (if Even ⌊q⌋ then ⌊q⌋ else ⌊q⌋ + 1) else round q

/-- Python `int()` applied to a float: truncation toward zero. -/
def pyIntTrunc (q : ℚ) : ℤ :=
  if q < 0 then -⌊-q⌋ else ⌊q⌋

/- ## The GPMF telemetry container parser (`parse_gpmf.py`) -/

/-- The value of an IEEE-754 binary32 number: either a NaN, a signed
infinity, or an exact finite rational value. -/
inductive F32Val : Type
  | nan : F32Val
  | inf : Bool → F32Val
  | finite : ℚ → F32Val
deriving DecidableEq, Repr

/-- Decode a 32-bit word (big-endian value already assembled) as an IEEE-754
binary32 number, exactly.  This is the value semantics of Python's
`struct.unpack('>f', …)`. -/
def decodeF32 (w : ℕ) : F32Val :=
  let w : ℕ := w % 2 ^ 32
  let sign : ℕ := w / 2 ^ 31
  let e : ℕ := w / 2 ^ 23 % 2 ^ 8
  let m : ℕ := w % 2 ^ 23
  if e = 255 then
    if m = 0 then .inf (sign = 1) else .nan
  else
    let mag : ℚ :=
      if e = 0 then mkRat m (2 ^ 149)
      else if 150 ≤ e then (((2 ^ 23 + m) * 2 ^ (e - 150) : ℕ) : ℚ)
      else mkRat (2 ^ 23 + m) (2 ^ (150 - e))
    .finite (if sign = 1 then -mag else mag)

/-- One GPS sample produced by the parser (`parse_gpmf.py`, the dict appended
to `self.gps_data`): five big-endian 32-bit floats. -/
structure GpsFix : Type where
  latitude : F32Val
  longitude : F32Val
  altitude : F32Val
  speed : F32Val
  speed3d : F32Val
deriving DecidableEq, Repr

/-- Byte access `data[i]` in a region the parser has already bounds-checked. -/
def byteAt (data : List ℕ) (i : ℕ) : ℕ := data.getD i 0

/-- Big-endian 32-bit value from four bytes, the semantics of
`struct.unpack('>I', …)`. -/
def be32 (a b c d : ℕ) : ℕ := ((a * 256 + b) * 256 + c) * 256 + d

/-- Reading `struct.unpack('>I', data[p:p+4])`. -/
def readU32 (data : List ℕ) (p : ℕ) : ℕ :=
  be32 (byteAt data p) (byteAt data (p + 1)) (byteAt data (p + 2)) (byteAt data (p + 3))

/-- The four tag bytes `data[p:p+4]` read by `parse_fourcc`. -/
def tagAt (data : List ℕ) (p : ℕ) : List ℕ :=
  [byteAt data p, byteAt data (p + 1), byteAt data (p + 2), byteAt data (p + 3)]

/-- The ASCII bytes of the `'GPS5'` FourCC. -/
def gps5Tag : List ℕ := [71, 80, 83, 53]

/-- Alignment `(position + 3) & ~3`: round the cursor up to the next multiple of 4. -/
def align4 (p : ℕ) : ℕ := (p + 3) / 4 * 4

/-- One GPS5 record decoded at offset `o`:
`struct.unpack('>fffff', data[o:o+20])` packed into a `GpsFix`. -/
def mkFix (data : List ℕ) (o : ℕ) : GpsFix :=
  ⟨decodeF32 (readU32 data o), decodeF32 (readU32 data (o + 4)),
   decodeF32 (readU32 data (o + 8)), decodeF32 (readU32 data (o + 12)),
   decodeF32 (readU32 data (o + 16))⟩

/-- The loop body of `GPMFParser.parse_gps_data`, with explicit cursor and
accumulator and a structural fuel (see the header note).  Branches, in the
source's order:
* `while self.position < len(self.data)` — loop guard;
* `parse_fourcc` returns `None` when fewer than 4 bytes remain — break;
* `.decode('ascii')` raises on a byte ≥ 128, caught by the handler — break;
* `parse_size` returns `None` when fewer than 4 further bytes remain — break;
* `if not size: break` — a declared size of 0 is falsy — break;
* `GPS5`: consume `size // 20` twenty-byte records, stopping early when
  fewer than 20 bytes remain; any other tag: skip `size` bytes;
* finally `position = (position + 3) & ~3` and loop. -/
def parseGo : ℕ → List ℕ → ℕ → List GpsFix → List GpsFix
  | 0, _, _, acc => acc
  | fuel + 1, data, pos, acc =>
    if data.length ≤ pos then acc
    else if data.length < pos + 4 then acc
    else if (tagAt data pos).any (fun b => 128 ≤ b) then acc
    else if data.length < pos + 8 then acc
    else
      let size := readU32 data (pos + 4)
      if size = 0 then acc
      else if tagAt data pos = gps5Tag then
        let k := min (size / 20) ((data.length - (pos + 8)) / 20)
        let fixes := (List.range k).map (fun i => mkFix data (pos + 8 + 20 * i))
        parseGo fuel data (align4 (pos + 8 + 20 * k)) (acc ++ fixes)
      else
        parseGo fuel data (align4 (pos + 8 + size)) acc

/-- The loop `GPMFParser.parse_gps_data` started at cursor `pos` with the fixes
already collected in `acc`; the parser itself runs `parse_gps_data data 0 []`. -/
def parse_gps_data (data : List ℕ) (pos : ℕ) (acc : List GpsFix) : List GpsFix :=
  parseGo (data.length - pos) data pos acc

/- ## Python string and integer-literal machinery

Python text strings are modelled as `List Char`.  `pyInt` models `int(text)`
on ASCII text: surrounding whitespace is stripped, an optional single sign is
allowed, and the digits may be grouped with single underscores. -/

/-- The ASCII whitespace characters stripped by Python's `int()`. -/
def isWsChar (c : Char) : Bool :=
  c = ' ' || c = Char.ofNat 9 || c = Char.ofNat 10 || c = Char.ofNat 11 ||
  c = Char.ofNat 12 || c = Char.ofNat 13

/-- ASCII decimal digit test. -/
def isDigitChar (c : Char) : Bool := 48 ≤ c.toNat && c.toNat ≤ 57

/-- The digit character for a value `d < 10`. -/
def digitChar (d : ℕ) : Char := Char.ofNat (48 + d)

/-- Decimal digits of `n`, most significant first, driven by a fuel that any
bound above `n` satisfies (each step divides `n` by ten). -/
def natDigitsGo : ℕ → ℕ → List Char
  | 0, _ => []
  | fuel + 1, n =>
    if n < 10 then [digitChar n]
    else natDigitsGo fuel (n / 10) ++ [digitChar (n % 10)]

/-- Decimal digit string of a natural number, e.g. `natDigits 105 = "105"`. -/
def natDigits (n : ℕ) : List Char := natDigitsGo (n + 1) n

/-- Left-pad with `'0'` to width `w`: the body of Python's `"%0wd"` format. -/
def zfill (w : ℕ) (s : List Char) : List Char :=
  List.replicate (w - s.length) '0' ++ s

/-- Python `f"{n:0wd}"`: zero-padded decimal rendering of an integer (the
sign, when present, counts toward the width and precedes the padding). -/
def pyFmtInt (w : ℕ) (n : ℤ) : List Char :=
  if n < 0 then '-' :: zfill (w - 1) (natDigits n.natAbs) else zfill w (natDigits n.natAbs)

/-- Python `text.split(sep)` for a one-character separator, accumulator form. -/
def splitOnGo (sep : Char) : List Char → List Char → List (List Char)
  | [], acc => [acc.reverse]
  | c :: rest, acc =>
    if c = sep then acc.reverse :: splitOnGo sep rest []
    else splitOnGo sep rest (c :: acc)

/-- Python `text.split(sep)` (one-character separator). -/
def splitOn (sep : Char) (cs : List Char) : List (List Char) := splitOnGo sep cs []

/-- Strip leading and trailing Python whitespace. -/
def stripWs (cs : List Char) : List Char :=
  ((cs.dropWhile isWsChar).reverse.dropWhile isWsChar).reverse

/-- A digit run possibly grouped by single underscores, starting after a
digit: every underscore must be followed by a digit. -/
def goodDigitRun : List Char → Bool
  | [] => true
  | c :: rest =>
    if isDigitChar c then goodDigitRun rest
    else if c = '_' then
      match rest with
      | [] => false
      | d :: _ => isDigitChar d && goodDigitRun rest
    else false

/-- Value of a (validated) digit run, underscores skipped. -/
def digitRunVal (cs : List Char) : ℕ :=
  (cs.filter (fun c => c ≠ '_')).foldl (fun a c => 10 * a + (c.toNat - 48)) 0

/-- Parse an unsigned Python integer literal body (nonempty, leading digit,
underscore grouping). -/
def pyIntBody (cs : List Char) : Option ℕ :=
  match cs with
  | [] => none
  | c :: _ => if isDigitChar c && goodDigitRun cs then some (digitRunVal cs) else none

/-- Python `int(text)` on ASCII text: `none` models the `ValueError` raised on
malformed input. -/
def pyInt (cs : List Char) : Option ℤ :=
  match stripWs cs with
  | [] => none
  | c :: rest =>
    if c = '+' then (pyIntBody rest).map (fun n => (n : ℤ))
    else if c = '-' then (pyIntBody rest).map (fun n => -(n : ℤ))
    else (pyIntBody (c :: rest)).map (fun n => (n : ℤ))

/- ## Timecode conversion helpers (`app.py` lines 45–97; the same functions
appear verbatim in `qtapp.py`) -/

/-- The zero timecode `"00:00:00:00"` returned on every defensive-default
path of `seconds_to_timecode`. -/
def defaultTC : List Char := "00:00:00:00".toList

/-- The zero SRT timecode `"00:00:00,000"`. -/
def defaultSRT : List Char := "00:00:00,000".toList

/-- The function `timecode_to_seconds` (`app.py` lines 45–62).  A `none` input models
`None`/non-string input ("falsy or not a str"); the empty string is also
falsy.  The result is `Except Unit ℚ`: `.error ()` models the
`ZeroDivisionError` raised by `frames / frame_rate` when `frame_rate == 0`,
which the handler — `except (ValueError, IndexError)` — does not catch. -/
def timecode_to_seconds (tc : Option (List Char)) (frame_rate : ℚ) : Except Unit ℚ :=
  match tc with
  | none => .ok 0
  | some cs =>
    if cs = [] then .ok 0
    else
      let parts := splitOn ':' cs
      if parts.length = 4 then
        match pyInt (parts.getD 0 []), pyInt (parts.getD 1 []),
              pyInt (parts.getD 2 []), pyInt (parts.getD 3 []) with
        | some h, some m, some s, some f =>
          if frame_rate = 0 then .error ()
          else .ok ((h : ℚ) * 3600 + (m : ℚ) * 60 + (s : ℚ) + (f : ℚ) / frame_rate)
        | _, _, _, _ => .ok 0
      else .ok 0

/-- The well-formedness test implicit in `timecode_to_seconds`: four
colon-separated fields that `int()` accepts. -/
def wellFormedTC (cs : List Char) : Bool :=
  (splitOn ':' cs).length = 4 &&
  ((splitOn ':' cs).all (fun p => (pyInt p).isSome))

/-- The four integer components computed by `seconds_to_timecode` on its main
path (`app.py` lines 70–76): everything after `round(seconds * frame_rate)`
is Python integer arithmetic. -/
structure TCFields : Type where
  hours : ℤ
  minutes : ℤ
  seconds : ℤ
  frames : ℤ
deriving DecidableEq, Repr

/-- The integer component computation of `seconds_to_timecode`. -/
def tcFields (t frame_rate : ℚ) : TCFields :=
  let total := max 0 t
  let totalFrames := pyround (total * frame_rate)
  let k := pyIntTrunc frame_rate
  let frames := Int.fmod totalFrames k
  let totalSecondsInt := Int.fdiv totalFrames k
  let seconds := Int.fmod totalSecondsInt 60
  let totalMinutes := Int.fdiv totalSecondsInt 60
  ⟨Int.fdiv totalMinutes 60, Int.fmod totalMinutes 60, seconds, frames⟩

/-- Render `HH:MM:SS:FF` with Python's `f"{…:02d}"` fields. -/
def mkTC (h m s f : ℤ) : List Char :=
  pyFmtInt 2 h ++ ':' :: (pyFmtInt 2 m ++ ':' :: (pyFmtInt 2 s ++ ':' :: pyFmtInt 2 f))

/-- The function `seconds_to_timecode` (`app.py` lines 64–80).  Here `none` models `None` or a
non-numeric input.  `pyIntTrunc frame_rate = 0` makes the integer modulus
raise `ZeroDivisionError`, caught by the blanket handler, which returns the
zero timecode. -/
def seconds_to_timecode (t : Option ℚ) (frame_rate : ℚ) : List Char :=
  match t with
  | none => defaultTC
  | some v =>
    if v < 0 then defaultTC
    else if pyIntTrunc frame_rate = 0 then defaultTC
    else
      let fl := tcFields v frame_rate
      mkTC fl.hours fl.minutes fl.seconds fl.frames

/-- The integer written into the `FF` slot of `seconds_to_timecode`'s output
(0 on every defensive-default path). -/
def framesValue (t : Option ℚ) (frame_rate : ℚ) : ℤ :=
  match t with
  | none => 0
  | some v =>
    if v < 0 then 0
    else if pyIntTrunc frame_rate = 0 then 0
    else (tcFields v frame_rate).frames

/-- The `HH:MM:SS` part of `seconds_to_timecode`'s output. -/
def tcHMS (t : Option ℚ) (frame_rate : ℚ) : List Char :=
  match t with
  | none => pyFmtInt 2 0 ++ ':' :: (pyFmtInt 2 0 ++ ':' :: pyFmtInt 2 0)
  | some v =>
    if v < 0 then pyFmtInt 2 0 ++ ':' :: (pyFmtInt 2 0 ++ ':' :: pyFmtInt 2 0)
    else if pyIntTrunc frame_rate = 0 then pyFmtInt 2 0 ++ ':' :: (pyFmtInt 2 0 ++ ':' :: pyFmtInt 2 0)
    else
      let fl := tcFields v frame_rate
      pyFmtInt 2 fl.hours ++ ':' :: (pyFmtInt 2 fl.minutes ++ ':' :: pyFmtInt 2 fl.seconds)

/-- The milliseconds value computed by `seconds_to_srt_timecode`:
`round((total_seconds % 1) * 1000)`; Python float `% 1` is the fractional
part `t - ⌊t⌋`. -/
def srtMs (t : Option ℚ) : ℤ :=
  match t with
  | none => 0
  | some v => if v < 0 then 0 else pyround (Int.fract (max 0 v) * 1000)

/-- The function `seconds_to_srt_timecode` (`app.py` lines 82–97, identical in
`qtapp.py` lines 300–314). -/
def seconds_to_srt_timecode (t : Option ℚ) : List Char :=
  match t with
  | none => defaultSRT
  | some v =>
    if v < 0 then defaultSRT
    else
      let total := max 0 v
      let ms := pyround (Int.fract total * 1000)
      let totalSecondsInt := pyIntTrunc total
      let seconds := Int.fmod totalSecondsInt 60
      let totalMinutes := Int.fdiv totalSecondsInt 60
      pyFmtInt 2 (Int.fdiv totalMinutes 60) ++ ':' ::
        (pyFmtInt 2 (Int.fmod totalMinutes 60) ++ ':' ::
          (pyFmtInt 2 seconds ++ ',' :: pyFmtInt 3 ms))

/- ## Interval adjustment and record-timeline layout
(`export_combined`, `app.py` lines 1195–1270) -/

/-- The constant `epsilon = 1e-9` (`app.py` line 1179). -/
def epsilon : ℚ := 1 / 10 ^ 9

/-- The constant `edl_frame_rate = 60.0` (`app.py` line 1175). -/
def edl_frame_rate : ℚ := 60

/-- The constant `min_duration = 1.0 / edl_frame_rate` (`app.py` line 1218). -/
def min_duration : ℚ := 1 / edl_frame_rate

/-- The per-scene values computed by the adjustment part of
`export_combined`. -/
structure SceneAdj : Type where
  adjusted_start : ℚ
  adjusted_end : ℚ
  clip_end : Option ℚ
  duration : ℚ
  out_sec_for_tc : ℚ
deriving DecidableEq, Repr

/-- The interval adjustment of `export_combined` (`app.py` lines 1196–1237):
offset application, epsilon-tolerant clamp of the end against
`clip_end = offset + duration_seconds`, minimum-duration enforcement with
re-clamp, and the epsilon correction applied to the value handed to the
seconds→timecode conversion for the source OUT point. -/
def adjust_interval (source_start source_end offset : ℚ) (duration_seconds : Option ℚ) :
    SceneAdj :=
  let adjustedStart := source_start + offset
  let adjustedEnd0 := source_end + offset
  let clipEnd : Option ℚ := duration_seconds.map (fun d => offset + d)
  let adjustedEnd1 :=
    match clipEnd with
    | some c => if adjustedEnd0 > c + epsilon then c else adjustedEnd0
    | none => adjustedEnd0
  let sourceDuration1 := max 0 (adjustedEnd1 - adjustedStart)
  let adjustedEnd2 :=
    if sourceDuration1 < min_duration - epsilon then
      match clipEnd with
      | some c => min (adjustedStart + min_duration) c
      | none => adjustedStart + min_duration
    else adjustedEnd1
  let sourceDuration :=
    if sourceDuration1 < min_duration - epsilon then max 0 (adjustedEnd2 - adjustedStart)
    else sourceDuration1
  let outSecForTc :=
    match clipEnd with
    | some c =>
      if |adjustedEnd2 - c| < epsilon then adjustedEnd2 - epsilon
      else if adjustedEnd2 < epsilon then 0 else adjustedEnd2
    | none => if adjustedEnd2 < epsilon then 0 else adjustedEnd2
  ⟨adjustedStart, adjustedEnd2, clipEnd, sourceDuration, outSecForTc⟩

/-- The record-timeline layout of `export_combined` (`app.py` lines
1241–1246 and 1270): a cursor starting at `record_start_seconds = 0.0`
advances by each interval's `source_duration_sec = max(0, adjusted_end -
adjusted_start)`; each interval is assigned `(record_in, record_out)`. -/
def record_timeline_go (cursor : ℚ) : List (ℚ × ℚ) → List (ℚ × ℚ)
  | [] => []
  | (a, e) :: rest =>
    let d := max 0 (e - a)
    (cursor, cursor + d) :: record_timeline_go (cursor + d) rest

/-- The record timeline over an ordered list of adjusted intervals. -/
def record_timeline (intervals : List (ℚ × ℚ)) : List (ℚ × ℚ) :=
  record_timeline_go 0 intervals

set_option maxRecDepth 8000

deriving instance DecidableEq for Except

/-- A synthetic telemetry buffer: one `GPS5` tag, declared size 40, followed
by 40 payload bytes encoding two records of five big-endian binary32 floats
`(1, 2, 0.5, -1, 0)` and `(3, 0.25, 100, 1.5, 2.5)`. -/
def gps5Buf : List ℕ :=
  gps5Tag ++ [0, 0, 0, 40] ++
  [63, 128, 0, 0] ++ [64, 0, 0, 0] ++ [63, 0, 0, 0] ++ [191, 128, 0, 0] ++ [0, 0, 0, 0] ++
  [64, 64, 0, 0] ++ [62, 128, 0, 0] ++ [66, 200, 0, 0] ++ [63, 192, 0, 0] ++ [64, 32, 0, 0]

/-- A buffer whose first block has a non-`GPS5` tag (`ACCL`) with declared
size 0, followed by a well-formed `GPS5` block holding one record. -/
def zeroSizeBuf : List ℕ :=
  [65, 67, 67, 76] ++ [0, 0, 0, 0] ++ gps5Tag ++ [0, 0, 0, 20] ++
  [63, 128, 0, 0] ++ [64, 0, 0, 0] ++ [63, 0, 0, 0] ++ [191, 128, 0, 0] ++ [0, 0, 0, 0]

/-- A buffer with a non-`GPS5` tag (`ACCL`) of declared size 4 and a 4-byte
payload. -/
def skipTagBuf : List ℕ :=
  [65, 67, 67, 76] ++ [0, 0, 0, 4] ++ [0, 0, 0, 0]

/-- A `GPS5` block whose declared size 24 is not a multiple of 20: one
complete record followed by 4 leftover declared payload bytes. -/
def oddSizeBuf : List ℕ :=
  gps5Tag ++ [0, 0, 0, 24] ++
  [63, 128, 0, 0] ++ [64, 0, 0, 0] ++ [63, 0, 0, 0] ++ [191, 128, 0, 0] ++ [0, 0, 0, 0] ++
  [0, 0, 0, 0]

/-- The cursor never moves backward across an alignment step. -/
theorem le_align4 (p : ℕ) : p ≤ align4 p := by
  unfold align4
  omega

/-- Fuel irrelevance: any fuel at least `data.length - pos` computes the same
result, so `parse_gps_data` is the fixed point of the loop. -/
theorem parseGo_fuel (f : ℕ) : ∀ (f' : ℕ) (data : List ℕ) (pos : ℕ)
    (acc : List GpsFix), data.length - pos ≤ f → data.length - pos ≤ f' →
    parseGo f data pos acc = parseGo f' data pos acc := by
  induction f with
  | zero =>
    intro f' data pos acc h _
    cases f' with
    | zero => rfl
    | succ g =>
      have : data.length ≤ pos := by omega
      simp [parseGo, this]
  | succ f ih =>
    intro f' data pos acc h h'
    cases f' with
    | zero =>
      have : data.length ≤ pos := by omega
      simp [parseGo, this]
    | succ g =>
      by_cases h1 : data.length ≤ pos
      · simp [parseGo, h1]
      · by_cases h2 : data.length < pos + 4
        · simp [parseGo, h1, h2]
        · by_cases h3 : (tagAt data pos).any (fun b => 128 ≤ b)
          · simp [parseGo, h1, h2, h3]
          · by_cases h4 : data.length < pos + 8
            · simp [parseGo, h1, h2, h3, h4]
            · by_cases h5 : readU32 data (pos + 4) = 0
              · simp [parseGo, h1, h2, h3, h4, h5]
              · by_cases h6 : tagAt data pos = gps5Tag
                · have hstep : ∀ k : ℕ,
                      data.length - align4 (pos + 8 + 20 * k) ≤ f ∧
                      data.length - align4 (pos + 8 + 20 * k) ≤ g := by
                    intro k
                    have := le_align4 (pos + 8 + 20 * k)
                    omega
                  simp only [parseGo, h1, h2, h3, h4, h5, h6, if_false, if_true,
                    ite_false, ite_true, if_neg, if_pos]
                  rw [ih g data _ _ (hstep _).1 (hstep _).2]
                · have := le_align4 (pos + 8 + readU32 data (pos + 4))
                  have hstep : data.length - align4 (pos + 8 + readU32 data (pos + 4)) ≤ f ∧
                      data.length - align4 (pos + 8 + readU32 data (pos + 4)) ≤ g := by
                    omega
                  simp only [parseGo, h1, h2, h3, h4, h5, h6, if_false, if_true,
                    ite_false, ite_true, if_neg, if_pos]
                  rw [ih g data _ _ hstep.1 hstep.2]

/- ## Basic facts about the Python numeric primitives -/

/-- Python `round` is the identity on integers. -/
theorem pyround_intCast (n : ℤ) : pyround (n : ℚ) = n := by
  unfold pyround
  rw [Int.fract_intCast]
  norm_num

/-- Python `round` of a non-negative value is non-negative. -/
theorem pyround_nonneg {q : ℚ} (h : 0 ≤ q) : 0 ≤ pyround q := by
  unfold pyround
  have hfl : (0 : ℤ) ≤ ⌊q⌋ := Int.floor_nonneg.mpr h
  have hr : (0 : ℤ) ≤ round q := by
    rw [round_eq]
    have : (0 : ℚ) ≤ q + 1 / 2 := by linarith
    exact Int.floor_nonneg.mpr this
  split_ifs <;> omega

/-- Python `round` does not exceed any integer strictly above its argument. -/
theorem pyround_le {q : ℚ} {n : ℤ} (h : q < (n : ℚ)) : pyround q ≤ n := by
  unfold pyround
  have hfl : ⌊q⌋ < n := Int.floor_lt.mpr (by exact_mod_cast h)
  have hr : round q ≤ n := by
    rw [round_eq]
    have : q + 1 / 2 < (n : ℚ) + 1 := by linarith
    have := Int.floor_lt.mpr (by exact_mod_cast this : q + 1 / 2 < ((n + 1 : ℤ) : ℚ))
    omega
  split_ifs <;> omega

/-- Python `int()` on a non-negative value is the floor. -/
theorem pyIntTrunc_of_nonneg {q : ℚ} (h : 0 ≤ q) : pyIntTrunc q = ⌊q⌋ := by
  unfold pyIntTrunc
  rw [if_neg (not_lt.mpr h)]

/-- Python `int()` is the identity on a natural number. -/
theorem pyIntTrunc_natCast (k : ℕ) : pyIntTrunc (k : ℚ) = k := by
  rw [pyIntTrunc_of_nonneg (by positivity)]
  exact_mod_cast Int.floor_natCast k

/- ## Decimal rendering and parsing round-trip -/

/-- Fuel irrelevance for the digit renderer. -/
theorem natDigitsGo_congr (f : ℕ) : ∀ (g n : ℕ), n < f → n < g →
    natDigitsGo f n = natDigitsGo g n := by
  induction f with
  | zero => intro g n h _; omega
  | succ f ih =>
    intro g n hf hg
    cases g with
    | zero => omega
    | succ g =>
      by_cases h10 : n < 10
      · simp [natDigitsGo, h10]
      · have hd : n / 10 < f ∧ n / 10 < g := by omega
        simp only [natDigitsGo, if_neg h10]
        rw [ih g (n / 10) hd.1 hd.2]

/-- Unfolding `natDigits` below ten. -/
theorem natDigits_lt_ten {n : ℕ} (h : n < 10) : natDigits n = [digitChar n] := by
  simp [natDigits, natDigitsGo, h]

/-- Unfolding `natDigits` at ten and above. -/
theorem natDigits_ge_ten {n : ℕ} (h : 10 ≤ n) :
    natDigits n = natDigits (n / 10) ++ [digitChar (n % 10)] := by
  have h1 : natDigitsGo (n + 1) n = natDigitsGo n (n / 10) ++ [digitChar (n % 10)] := by
    cases n with
    | zero => omega
    | succ k => simp [natDigitsGo, Nat.not_lt.mpr h]
  have h2 : natDigitsGo n (n / 10) = natDigitsGo (n / 10 + 1) (n / 10) :=
    natDigitsGo_congr n (n / 10 + 1) (n / 10) (by omega) (by omega)
  unfold natDigits
  rw [h1, h2]

/-- Every character rendered for a digit value is an ASCII digit. -/
theorem isDigitChar_digitChar {d : ℕ} (h : d < 10) : isDigitChar (digitChar d) = true := by
  interval_cases d <;> decide

/-- Every character of `natDigits n` is an ASCII digit. -/
theorem natDigits_all_digits (n : ℕ) : ∀ c ∈ natDigits n, isDigitChar c = true := by
  induction n using Nat.strong_induction_on with
  | _ n ih =>
    by_cases h : n < 10
    · rw [natDigits_lt_ten h]
      intro c hc
      rw [List.mem_singleton] at hc
      subst hc
      exact isDigitChar_digitChar h
    · rw [natDigits_ge_ten (by omega)]
      intro c hc
      rcases List.mem_append.mp hc with h1 | h1
      · exact ih (n / 10) (by omega) c h1
      · rw [List.mem_singleton] at h1
        subst h1
        exact isDigitChar_digitChar (Nat.mod_lt n (by omega))

/-- The digit string `natDigits n` is never empty. -/
theorem natDigits_ne_nil (n : ℕ) : natDigits n ≠ [] := by
  by_cases h : n < 10
  · rw [natDigits_lt_ten h]; simp
  · rw [natDigits_ge_ten (by omega)]; simp

/-- The numeric value of a digit character. -/
theorem digitChar_toNat {d : ℕ} (h : d < 10) : (digitChar d).toNat = 48 + d := by
  interval_cases d <;> decide

/-- Folding the base-ten accumulator over `natDigits n` recovers `n`. -/
theorem foldl_natDigits (n : ℕ) : ∀ a : ℕ,
    (natDigits n).foldl (fun a c => 10 * a + (c.toNat - 48)) a =
      a * 10 ^ (natDigits n).length + n := by
  induction n using Nat.strong_induction_on with
  | _ n ih =>
    intro a
    by_cases h : n < 10
    · rw [natDigits_lt_ten h, List.foldl_cons, List.foldl_nil, digitChar_toNat h]
      have hx : 48 + n - 48 = n := by omega
      rw [hx]
      simp only [List.length_cons, List.length_nil]
      ring
    · rw [natDigits_ge_ten (by omega)]
      rw [List.foldl_append, ih (n / 10) (by omega) a, List.foldl_cons, List.foldl_nil,
        digitChar_toNat (Nat.mod_lt n (by omega))]
      have hx : 48 + n % 10 - 48 = n % 10 := by omega
      rw [hx]
      have hdm : 10 * (n / 10) + n % 10 = n := Nat.div_add_mod n 10
      rw [List.length_append]
      simp only [List.length_cons, List.length_nil]
      calc 10 * (a * 10 ^ (natDigits (n / 10)).length + n / 10) + n % 10
          = a * (10 ^ (natDigits (n / 10)).length * 10) + (10 * (n / 10) + n % 10) := by ring
        _ = a * 10 ^ ((natDigits (n / 10)).length + (0 + 1)) + n := by rw [hdm, pow_succ]

/-- A character satisfying the digit test differs from any character that
fails it. -/
theorem digit_ne {c : Char} (h : isDigitChar c = true) {d : Char}
    (hd : isDigitChar d = false) : c ≠ d := by
  intro he
  subst he
  rw [h] at hd
  cases hd

/-- A character failing the digit test is not in an all-digit list. -/
theorem not_mem_of_digits {cs : List Char} (h : ∀ c ∈ cs, isDigitChar c = true)
    {d : Char} (hd : isDigitChar d = false) : d ∉ cs := by
  intro hin
  rw [h d hin] at hd
  cases hd

/-- Digits are not Python whitespace. -/
theorem isWsChar_eq_false_of_digit {c : Char} (h : isDigitChar c = true) :
    isWsChar c = false := by
  by_contra hw
  rw [Bool.not_eq_false] at hw
  unfold isWsChar at hw
  simp only [Bool.or_eq_true, decide_eq_true_eq] at hw
  rcases hw with ((((h1 | h1) | h1) | h1) | h1) | h1 <;> subst h1 <;>
    exact absurd h (by decide)

/-- Dropping `isWsChar` characters is the identity on an all-digit list. -/
theorem dropWhile_ws_of_digits {cs : List Char} (h : ∀ c ∈ cs, isDigitChar c = true) :
    cs.dropWhile isWsChar = cs := by
  cases cs with
  | nil => rfl
  | cons c t =>
    rw [List.dropWhile_cons,
      if_neg (by rw [isWsChar_eq_false_of_digit (h c (List.mem_cons_self c t))]; simp)]

/-- Stripping whitespace is the identity on an all-digit list. -/
theorem stripWs_of_digits {cs : List Char} (h : ∀ c ∈ cs, isDigitChar c = true) :
    stripWs cs = cs := by
  unfold stripWs
  rw [dropWhile_ws_of_digits h,
    dropWhile_ws_of_digits (fun c hc => h c (List.mem_reverse.mp hc)), List.reverse_reverse]

/-- An all-digit list is a valid grouped digit run. -/
theorem goodDigitRun_of_digits {cs : List Char} (h : ∀ c ∈ cs, isDigitChar c = true) :
    goodDigitRun cs = true := by
  induction cs with
  | nil => rfl
  | cons c t ih =>
    have hc := h c (List.mem_cons_self c t)
    simp only [goodDigitRun, hc, if_true]
    exact ih (fun d hd => h d (List.mem_cons_of_mem c hd))

/-- Underscore filtering is the identity on an all-digit list. -/
theorem filter_underscore_of_digits {cs : List Char} (h : ∀ c ∈ cs, isDigitChar c = true) :
    cs.filter (fun c => c ≠ '_') = cs := by
  rw [List.filter_eq_self]
  intro a ha
  have := digit_ne (h a ha) (d := '_') (by decide)
  simp [this]

/-- The body parser `pyIntBody` accepts a nonempty all-digit list. -/
theorem pyIntBody_digits {cs : List Char} (hne : cs ≠ [])
    (h : ∀ c ∈ cs, isDigitChar c = true) : pyIntBody cs = some (digitRunVal cs) := by
  cases cs with
  | nil => exact absurd rfl hne
  | cons c t =>
    have h1 : isDigitChar c = true := h c (List.mem_cons_self c t)
    simp [pyIntBody, h1, goodDigitRun_of_digits h]

/-- The value of the digit rendering of `n` is `n`. -/
theorem digitRunVal_natDigits (n : ℕ) : digitRunVal (natDigits n) = n := by
  unfold digitRunVal
  rw [filter_underscore_of_digits (natDigits_all_digits n), foldl_natDigits n 0]
  ring

/-- Zero-padding preserves digit-ness. -/
theorem zfill_all_digits {w : ℕ} {cs : List Char} (h : ∀ c ∈ cs, isDigitChar c = true) :
    ∀ c ∈ zfill w cs, isDigitChar c = true := by
  intro c hc
  rcases List.mem_append.mp hc with h1 | h1
  · rw [List.eq_of_mem_replicate h1]
    decide
  · exact h c h1

/-- Zero-padding does not change the parsed value. -/
theorem digitRunVal_zfill (w : ℕ) {cs : List Char}
    (h : ∀ c ∈ cs, isDigitChar c = true) : digitRunVal (zfill w cs) = digitRunVal cs := by
  unfold digitRunVal zfill
  rw [List.filter_append, filter_underscore_of_digits h,
    List.filter_eq_self.mpr (fun a ha => by rw [List.eq_of_mem_replicate ha]; decide),
    List.foldl_append]
  have hrep : ∀ k : ℕ, List.foldl (fun (a : ℕ) (c : Char) => 10 * a + (c.toNat - 48)) 0
      (List.replicate k '0') = 0 := by
    intro k
    induction k with
    | zero => rfl
    | succ k ih => rw [List.replicate_succ, List.foldl_cons]; simpa using ih
  rw [hrep]

/-- Python `int()` parses a zero-padded digit rendering back to its value. -/
theorem pyInt_zfill_natDigits (w n : ℕ) : pyInt (zfill w (natDigits n)) = some (n : ℤ) := by
  have hd := zfill_all_digits (w := w) (natDigits_all_digits n)
  have hne : zfill w (natDigits n) ≠ [] := by
    unfold zfill
    intro hemp
    rcases List.append_eq_nil.mp hemp with ⟨_, h2⟩
    exact natDigits_ne_nil n h2
  obtain ⟨c, t, hct⟩ : ∃ c t, zfill w (natDigits n) = c :: t := by
    cases hz : zfill w (natDigits n) with
    | nil => exact absurd hz hne
    | cons c t => exact ⟨c, t, rfl⟩
  have hcdig : isDigitChar c = true := hd c (by rw [hct]; exact List.mem_cons_self c t)
  unfold pyInt
  rw [stripWs_of_digits hd, hct]
  dsimp only
  rw [if_neg (digit_ne hcdig (show isDigitChar '+' = false by decide)),
    if_neg (digit_ne hcdig (show isDigitChar '-' = false by decide)),
    ← hct, pyIntBody_digits hne hd, digitRunVal_zfill w (natDigits_all_digits n),
    digitRunVal_natDigits]
  rfl

/-- Formatting `pyFmtInt` on a natural number is plain zero-padded digits. -/
theorem pyFmtInt_natCast (w n : ℕ) : pyFmtInt w (n : ℤ) = zfill w (natDigits n) := by
  unfold pyFmtInt
  rw [if_neg (by exact_mod_cast Int.not_lt.mpr (Int.natCast_nonneg n)), Int.natAbs_ofNat]

/-- Splitting a list that does not contain the separator. -/
theorem splitOnGo_of_not_mem {sep : Char} {l : List Char} (h : sep ∉ l) :
    ∀ acc, splitOnGo sep l acc = [acc.reverse ++ l] := by
  induction l with
  | nil => intro acc; simp [splitOnGo]
  | cons c t ih =>
    intro acc
    have hc : ¬c = sep := fun he => h (he ▸ List.mem_cons_self c t)
    rw [splitOnGo, if_neg hc, ih (fun ht => h (List.mem_cons_of_mem c ht))]
    simp

/-- Splitting peels off a separator-free first chunk. -/
theorem splitOnGo_append {sep : Char} {A rest : List Char} (h : sep ∉ A) :
    ∀ acc, splitOnGo sep (A ++ sep :: rest) acc =
      (acc.reverse ++ A) :: splitOnGo sep rest [] := by
  induction A with
  | nil =>
    intro acc
    simp [splitOnGo]
  | cons a A ih =>
    intro acc
    have ha : ¬a = sep := fun he => h (he ▸ List.mem_cons_self a A)
    rw [List.cons_append, splitOnGo, if_neg ha,
      ih (fun ht => h (List.mem_cons_of_mem a ht)) (a :: acc)]
    simp

/-- Splitting a four-field colon-joined string recovers the fields. -/
theorem splitOn_four {F1 F2 F3 F4 : List Char} (h1 : ':' ∉ F1) (h2 : ':' ∉ F2)
    (h3 : ':' ∉ F3) (h4 : ':' ∉ F4) :
    splitOn ':' (F1 ++ ':' :: (F2 ++ ':' :: (F3 ++ ':' :: F4))) = [F1, F2, F3, F4] := by
  unfold splitOn
  rw [splitOnGo_append h1, splitOnGo_append h2, splitOnGo_append h3,
    splitOnGo_of_not_mem h4]
  simp

/- ## Exact computation of `seconds_to_timecode` on frame-exact inputs -/

/-- On an input of the exact form `B + f / k` coming from
`timecode_to_seconds`, the integer pipeline of `seconds_to_timecode`
recovers the original `(h, m, s, f)` fields. -/
theorem tcFields_exact (h m s f k : ℕ) (hk : 0 < k) (hf : f < k) (hm : m < 60)
    (hs : s < 60) :
    tcFields ((h : ℚ) * 3600 + (m : ℚ) * 60 + (s : ℚ) + (f : ℚ) / (k : ℚ)) (k : ℚ) =
      ⟨(h : ℤ), (m : ℤ), (s : ℤ), (f : ℤ)⟩ := by
  have hk0 : (k : ℚ) ≠ 0 := by positivity
  set B : ℕ := s + 60 * (m + 60 * h) with hB
  have htB : (h : ℚ) * 3600 + (m : ℚ) * 60 + (s : ℚ) = (B : ℚ) := by
    rw [hB]; push_cast; ring
  have ht0 : (0 : ℚ) ≤ (h : ℚ) * 3600 + (m : ℚ) * 60 + (s : ℚ) + (f : ℚ) / (k : ℚ) := by
    positivity
  unfold tcFields
  dsimp only
  rw [max_eq_right ht0]
  have hprod : ((h : ℚ) * 3600 + (m : ℚ) * 60 + (s : ℚ) + (f : ℚ) / (k : ℚ)) * (k : ℚ) =
      (((f : ℤ) + (k : ℤ) * (B : ℤ) : ℤ) : ℚ) := by
    rw [htB]
    field_simp
    ring_nf
  rw [hprod, pyround_intCast, pyIntTrunc_natCast]
  have hkz : (0 : ℤ) ≤ (k : ℤ) := Int.natCast_nonneg k
  have hkpos : (0 : ℤ) < (k : ℤ) := by exact_mod_cast hk
  have hfz : (0 : ℤ) ≤ (f : ℤ) := Int.natCast_nonneg f
  have hfk : (f : ℤ) < (k : ℤ) := by exact_mod_cast hf
  have h1 : Int.fmod ((f : ℤ) + (k : ℤ) * (B : ℤ)) (k : ℤ) = (f : ℤ) := by
    rw [Int.fmod_eq_emod _ hkz, Int.add_mul_emod_self_left, Int.emod_eq_of_lt hfz hfk]
  have h2 : Int.fdiv ((f : ℤ) + (k : ℤ) * (B : ℤ)) (k : ℤ) = (B : ℤ) := by
    rw [Int.fdiv_eq_ediv _ hkz, Int.add_mul_ediv_left _ _ (by omega : (k : ℤ) ≠ 0),
      Int.ediv_eq_zero_of_lt hfz hfk]
    ring
  rw [h1, h2]
  have hBsplit : (B : ℤ) = (s : ℤ) + 60 * ((m : ℤ) + 60 * (h : ℤ)) := by
    rw [hB]; push_cast; ring
  have hsz : (0 : ℤ) ≤ (s : ℤ) := Int.natCast_nonneg s
  have hs60 : (s : ℤ) < 60 := by exact_mod_cast hs
  have hmz : (0 : ℤ) ≤ (m : ℤ) := Int.natCast_nonneg m
  have hm60 : (m : ℤ) < 60 := by exact_mod_cast hm
  have h3 : Int.fmod (B : ℤ) 60 = (s : ℤ) := by
    rw [hBsplit, Int.fmod_eq_emod _ (by omega), Int.add_mul_emod_self_left,
      Int.emod_eq_of_lt hsz hs60]
  have h4 : Int.fdiv (B : ℤ) 60 = (m : ℤ) + 60 * (h : ℤ) := by
    rw [hBsplit, Int.fdiv_eq_ediv _ (by omega),
      Int.add_mul_ediv_left _ _ (by omega : (60 : ℤ) ≠ 0),
      Int.ediv_eq_zero_of_lt hsz hs60]
    ring
  rw [h3, h4]
  have h5 : Int.fmod ((m : ℤ) + 60 * (h : ℤ)) 60 = (m : ℤ) := by
    rw [Int.fmod_eq_emod _ (by omega), Int.add_mul_emod_self_left,
      Int.emod_eq_of_lt hmz hm60]
  have h6 : Int.fdiv ((m : ℤ) + 60 * (h : ℤ)) 60 = (h : ℤ) := by
    rw [Int.fdiv_eq_ediv _ (by omega),
      Int.add_mul_ediv_left _ _ (by omega : (60 : ℤ) ≠ 0),
      Int.ediv_eq_zero_of_lt hmz hm60]
    ring
  rw [h5, h6]

/- ## Claim C1: timecode round-trip -/

/-- C1.  Timecode round-trip: for frame_rate ∈ {30, 60} and any
`(h, m, s, f)` with `0 ≤ f < frame_rate`, `0 ≤ m < 60`, `0 ≤ s < 60`,
`timecode_to_seconds` maps the zero-padded string `HH:MM:SS:FF` to
`h*3600 + m*60 + s + f/frame_rate` seconds, and `seconds_to_timecode` maps
that value back to the original zero-padded string. -/
theorem C1_roundtrip (h m s f fr : ℕ) (hfr : fr = 30 ∨ fr = 60) (hf : f < fr)
    (hm : m < 60) (hs : s < 60) :
    timecode_to_seconds (some (mkTC (h : ℤ) (m : ℤ) (s : ℤ) (f : ℤ))) (fr : ℚ) =
      .ok ((h : ℚ) * 3600 + (m : ℚ) * 60 + (s : ℚ) + (f : ℚ) / (fr : ℚ)) ∧
    seconds_to_timecode
      (some ((h : ℚ) * 3600 + (m : ℚ) * 60 + (s : ℚ) + (f : ℚ) / (fr : ℚ))) (fr : ℚ) =
      mkTC (h : ℤ) (m : ℤ) (s : ℤ) (f : ℤ) := by
  have hfr0 : 0 < fr := by rcases hfr with rfl | rfl <;> norm_num
  have hmk : mkTC (h : ℤ) (m : ℤ) (s : ℤ) (f : ℤ) =
      zfill 2 (natDigits h) ++ ':' :: (zfill 2 (natDigits m) ++ ':' ::
        (zfill 2 (natDigits s) ++ ':' :: zfill 2 (natDigits f))) := by
    unfold mkTC
    rw [pyFmtInt_natCast, pyFmtInt_natCast, pyFmtInt_natCast, pyFmtInt_natCast]
  have hnc : ∀ n : ℕ, ':' ∉ zfill 2 (natDigits n) := fun n =>
    not_mem_of_digits (zfill_all_digits (natDigits_all_digits n)) (by decide)
  have hval : (0 : ℚ) ≤ (h : ℚ) * 3600 + (m : ℚ) * 60 + (s : ℚ) + (f : ℚ) / (fr : ℚ) := by
    positivity
  constructor
  · rw [hmk]
    unfold timecode_to_seconds
    dsimp only
    rw [if_neg (by simp)]
    rw [splitOn_four (hnc h) (hnc m) (hnc s) (hnc f)]
    have hlen : [zfill 2 (natDigits h), zfill 2 (natDigits m), zfill 2 (natDigits s),
        zfill 2 (natDigits f)].length = 4 := rfl
    rw [if_pos hlen]
    simp only [List.getD_cons_zero, List.getD_cons_succ]
    rw [pyInt_zfill_natDigits 2 h, pyInt_zfill_natDigits 2 m, pyInt_zfill_natDigits 2 s,
      pyInt_zfill_natDigits 2 f]
    dsimp only
    rw [if_neg (show ¬((fr : ℚ) = 0) by positivity)]
    exact congrArg Except.ok (by push_cast; ring)
  · unfold seconds_to_timecode
    dsimp only
    rw [if_neg (not_lt.mpr hval), pyIntTrunc_natCast fr,
      if_neg (show ¬((fr : ℕ) : ℤ) = 0 by exact_mod_cast hfr0.ne'),
      tcFields_exact h m s f fr hfr0 hf hm hs]

/-- C1 witness: the round trip at `01:02:03:15`, frame rate 30. -/
theorem C1_roundtrip_witness :
    timecode_to_seconds (some (mkTC ((1 : ℕ) : ℤ) ((2 : ℕ) : ℤ) ((3 : ℕ) : ℤ) ((15 : ℕ) : ℤ)))
        ((30 : ℕ) : ℚ) =
      .ok (((1 : ℕ) : ℚ) * 3600 + ((2 : ℕ) : ℚ) * 60 + ((3 : ℕ) : ℚ) +
        ((15 : ℕ) : ℚ) / ((30 : ℕ) : ℚ)) ∧
    seconds_to_timecode
      (some (((1 : ℕ) : ℚ) * 3600 + ((2 : ℕ) : ℚ) * 60 + ((3 : ℕ) : ℚ) +
        ((15 : ℕ) : ℚ) / ((30 : ℕ) : ℚ))) ((30 : ℕ) : ℚ) =
      mkTC ((1 : ℕ) : ℤ) ((2 : ℕ) : ℤ) ((3 : ℕ) : ℤ) ((15 : ℕ) : ℤ) :=
  C1_roundtrip 1 2 3 15 30 (Or.inl rfl) (by decide) (by decide) (by decide)

/- ## Claim C2: record-timeline gaplessness -/

/-- The record timeline assigns one pair per interval. -/
theorem record_timeline_go_length (ivs : List (ℚ × ℚ)) :
    ∀ c, (record_timeline_go c ivs).length = ivs.length := by
  induction ivs with
  | nil => intro c; rfl
  | cons p t ih =>
    obtain ⟨a, e⟩ := p
    intro c
    simp only [record_timeline_go, List.length_cons, ih]

/-- The first pair starts at the cursor. -/
theorem record_timeline_go_head (a e : ℚ) (t : List (ℚ × ℚ)) (c : ℚ) :
    ((record_timeline_go c ((a, e) :: t)).getD 0 (0, 0)).1 = c := by
  simp [record_timeline_go]

/-- Each assigned pair satisfies `record_out = record_in + max 0 (end - start)`. -/
theorem record_timeline_go_out (ivs : List (ℚ × ℚ)) : ∀ c i, i < ivs.length →
    ((record_timeline_go c ivs).getD i (0, 0)).2 =
      ((record_timeline_go c ivs).getD i (0, 0)).1 +
        max 0 ((ivs.getD i (0, 0)).2 - (ivs.getD i (0, 0)).1) := by
  induction ivs with
  | nil => intro c i hi; simp at hi
  | cons p t ih =>
    obtain ⟨a, e⟩ := p
    intro c i hi
    cases i with
    | zero => simp [record_timeline_go]
    | succ i =>
      simp only [record_timeline_go, List.getD_cons_succ]
      exact ih _ i (by simpa using hi)

/-- Each pair starts where the previous one ended. -/
theorem record_timeline_go_chain (ivs : List (ℚ × ℚ)) : ∀ c i, i + 1 < ivs.length →
    ((record_timeline_go c ivs).getD (i + 1) (0, 0)).1 =
      ((record_timeline_go c ivs).getD i (0, 0)).2 := by
  induction ivs with
  | nil => intro c i hi; simp at hi
  | cons p t ih =>
    obtain ⟨a, e⟩ := p
    intro c i hi
    cases i with
    | zero =>
      cases t with
      | nil => simp at hi
      | cons q u =>
        obtain ⟨b, g⟩ := q
        simp [record_timeline_go]
    | succ i =>
      simp only [record_timeline_go, List.getD_cons_succ]
      exact ih _ i (by simpa using hi)

/-- C2.  Record-timeline gaplessness: the concrete three-interval layout of
durations `[2.0, 3.5, 1.0]` is exactly `(0,2), (2,5.5), (5.5,6.5)`; and for
every ordered list of adjusted intervals with `adjusted_start ≤ adjusted_end`,
the first record_in is 0, each `record_out = record_in +
(adjusted_end - adjusted_start)`, and each subsequent `record_in` equals the
previous `record_out`. -/
theorem C2_record_timeline :
    record_timeline [(0, 2), (0, 7 / 2), (0, 1)] = [(0, 2), (2, 11 / 2), (11 / 2, 13 / 2)] ∧
    ∀ ivs : List (ℚ × ℚ), (∀ p ∈ ivs, p.1 ≤ p.2) →
      (record_timeline ivs).length = ivs.length ∧
      (0 < ivs.length → ((record_timeline ivs).getD 0 (0, 0)).1 = 0) ∧
      (∀ i, i < ivs.length →
        ((record_timeline ivs).getD i (0, 0)).2 =
          ((record_timeline ivs).getD i (0, 0)).1 +
            ((ivs.getD i (0, 0)).2 - (ivs.getD i (0, 0)).1)) ∧
      (∀ i, i + 1 < ivs.length →
        ((record_timeline ivs).getD (i + 1) (0, 0)).1 =
          ((record_timeline ivs).getD i (0, 0)).2) := by
  constructor
  · with_unfolding_all decide
  · intro ivs hord
    refine ⟨record_timeline_go_length ivs 0, ?_, ?_, ?_⟩
    · intro hlen
      cases ivs with
      | nil => simp at hlen
      | cons p t =>
        obtain ⟨a, e⟩ := p
        exact record_timeline_go_head a e t 0
    · intro i hi
      have h1 := record_timeline_go_out ivs 0 i hi
      have hmem : ivs.getD i (0, 0) ∈ ivs := by
        rw [List.getD_eq_getElem _ _ hi]
        exact List.getElem_mem hi
      have hle : (ivs.getD i (0, 0)).1 ≤ (ivs.getD i (0, 0)).2 := hord _ hmem
      rw [record_timeline, h1, max_eq_right (by linarith)]
    · intro i hi
      exact record_timeline_go_chain ivs 0 i hi

/-- C2 witness: the general part applied to the single interval `(1, 3)`. -/
theorem C2_record_timeline_witness :
    ((record_timeline [((1 : ℚ), (3 : ℚ))]).getD 0 (0, 0)).2 =
      ((record_timeline [((1 : ℚ), (3 : ℚ))]).getD 0 (0, 0)).1 +
        (([((1 : ℚ), (3 : ℚ))].getD 0 (0, 0)).2 - ([((1 : ℚ), (3 : ℚ))].getD 0 (0, 0)).1) :=
  (C2_record_timeline.2 [((1 : ℚ), (3 : ℚ))]
    (by intro p hp; rw [List.mem_singleton] at hp; subst hp; with_unfolding_all decide)).2.2.1
    0 (by decide)

/- ## Claim C3: minimum-duration invariant -/

/-- C3 counterexample.  The invariant fails as stated: with
`source_start = 1`, `source_end = 2`, `offset = 0`, `duration_seconds = 0`
the re-clamp drags `adjusted_end` to the clip end 0, below
`adjusted_start = 1`; and with `source_end - source_start =
min_duration - epsilon` and no clip the sub-epsilon shortfall survives, so
the adjusted duration is strictly less than one output frame. -/
theorem C3_counterexample :
    (adjust_interval 1 2 0 (some 0)).adjusted_end <
      (adjust_interval 1 2 0 (some 0)).adjusted_start ∧
    (adjust_interval 0 (1 / 60 - 1 / 10 ^ 9) 0 none).adjusted_end -
        (adjust_interval 0 (1 / 60 - 1 / 10 ^ 9) 0 none).adjusted_start < min_duration := by
  with_unfolding_all decide

/-- C3 (amended).  When the clip end is absent, or lies at least
`min_duration` above `adjusted_start`, the adjustment yields
`adjusted_end ≥ adjusted_start` and a duration of at least
`min_duration - epsilon` (the enforcement branch only fires for shortfalls
larger than `epsilon`). -/
theorem C3_min_duration (ss se off : ℚ) (dur : Option ℚ)
    (hclip : ∀ d, dur = some d → ss + off + min_duration ≤ off + d) :
    (adjust_interval ss se off dur).adjusted_start ≤
      (adjust_interval ss se off dur).adjusted_end ∧
    min_duration - epsilon ≤
      (adjust_interval ss se off dur).adjusted_end -
        (adjust_interval ss se off dur).adjusted_start := by
  have hme : (0 : ℚ) < min_duration - epsilon := by
    norm_num [min_duration, edl_frame_rate, epsilon]
  have hmd : (0 : ℚ) < min_duration := by
    norm_num [min_duration, edl_frame_rate]
  have heps : (0 : ℚ) < epsilon := by norm_num [epsilon]
  cases dur with
  | none =>
    unfold adjust_interval
    simp only [Option.map_none']
    split_ifs with h1
    · constructor <;> linarith
    · have h2 : min_duration - epsilon ≤ max 0 (se + off - (ss + off)) := not_lt.mp h1
      have h3 : min_duration - epsilon ≤ se + off - (ss + off) := by
        rcases le_or_lt (se + off - (ss + off)) 0 with h4 | h4
        · rw [max_eq_left h4] at h2; linarith
        · rwa [max_eq_right h4.le] at h2
      constructor <;> linarith
  | some d =>
    have hc : ss + off + min_duration ≤ off + d := hclip d rfl
    unfold adjust_interval
    simp only [Option.map_some']
    have hminr : min (ss + off + min_duration) (off + d) = ss + off + min_duration :=
      min_eq_left hc
    split_ifs with h1 h2 h2
    · rw [hminr]
      constructor <;> linarith
    · have h3 : min_duration - epsilon ≤ max 0 (off + d - (ss + off)) := not_lt.mp h2
      have h4 : min_duration - epsilon ≤ off + d - (ss + off) := by
        rcases le_or_lt (off + d - (ss + off)) 0 with h5 | h5
        · rw [max_eq_left h5] at h3; linarith
        · rwa [max_eq_right h5.le] at h3
      constructor <;> linarith
    · rw [hminr]
      constructor <;> linarith
    · have h3 : min_duration - epsilon ≤ max 0 (se + off - (ss + off)) := not_lt.mp h2
      have h4 : min_duration - epsilon ≤ se + off - (ss + off) := by
        rcases le_or_lt (se + off - (ss + off)) 0 with h5 | h5
        · rw [max_eq_left h5] at h3; linarith
        · rwa [max_eq_right h5.le] at h3
      constructor <;> linarith

/-- C3 witness: the amended invariant at `source_start = 10`,
`source_end = 20`, `offset = 0`, `duration_seconds = 15`. -/
theorem C3_min_duration_witness :
    (adjust_interval 10 20 0 (some 15)).adjusted_start ≤
      (adjust_interval 10 20 0 (some 15)).adjusted_end ∧
    min_duration - epsilon ≤
      (adjust_interval 10 20 0 (some 15)).adjusted_end -
        (adjust_interval 10 20 0 (some 15)).adjusted_start :=
  C3_min_duration 10 20 0 (some 15)
    (fun d hd => by
      cases hd
      with_unfolding_all decide)

/- ## Claim C6: clip-boundary epsilon correction -/

/-- C6.  When the adjusted end lies within `epsilon` of the clip end, the
value handed to the seconds→timecode conversion for the source OUT point is
`adjusted_end - epsilon`, while the duration used for the record timeline is
still computed from the uncorrected `adjusted_end`. -/
theorem C6_epsilon_correction (ss se off d : ℚ)
    (hnear : |(adjust_interval ss se off (some d)).adjusted_end - (off + d)| < epsilon) :
    (adjust_interval ss se off (some d)).out_sec_for_tc =
      (adjust_interval ss se off (some d)).adjusted_end - epsilon ∧
    (adjust_interval ss se off (some d)).duration =
      max 0 ((adjust_interval ss se off (some d)).adjusted_end -
        (adjust_interval ss se off (some d)).adjusted_start) := by
  unfold adjust_interval at hnear ⊢
  simp only [Option.map_some'] at hnear ⊢
  constructor
  · split_ifs at hnear ⊢ <;> rfl
  · split_ifs <;> rfl

/-- C6 witness: a scene ending exactly at the clip end. -/
theorem C6_epsilon_correction_witness :
    (adjust_interval 0 10 0 (some 10)).out_sec_for_tc =
      (adjust_interval 0 10 0 (some 10)).adjusted_end - epsilon ∧
    (adjust_interval 0 10 0 (some 10)).duration =
      max 0 ((adjust_interval 0 10 0 (some 10)).adjusted_end -
        (adjust_interval 0 10 0 (some 10)).adjusted_start) :=
  C6_epsilon_correction 0 10 0 10 (by with_unfolding_all decide)

/- ## Claim C7: frames-field postcondition -/

/-- C7.  For every seconds input (including the defensive-default paths) and
every positive frame rate, the integer written into the `FF` slot of
`seconds_to_timecode` satisfies `0 ≤ FF < frame_rate`, and the output string
is the `HH:MM:SS` part followed by `':'` and the two-digit rendering of
`FF`. -/
theorem C7_frames_range (t : Option ℚ) (fr : ℚ) (hfr : 0 < fr) :
    0 ≤ framesValue t fr ∧ ((framesValue t fr : ℚ) < fr) ∧
    seconds_to_timecode t fr = tcHMS t fr ++ ':' :: pyFmtInt 2 (framesValue t fr) := by
  cases t with
  | none =>
    exact ⟨le_refl 0, by exact_mod_cast hfr, rfl⟩
  | some v =>
    by_cases hv : v < 0
    · simp only [framesValue, seconds_to_timecode, tcHMS, if_pos hv]
      exact ⟨le_refl 0, by exact_mod_cast hfr, rfl⟩
    · by_cases hk : pyIntTrunc fr = 0
      · simp only [framesValue, seconds_to_timecode, tcHMS, if_neg hv, if_pos hk]
        exact ⟨le_refl 0, by exact_mod_cast hfr, rfl⟩
      · have hkfl : pyIntTrunc fr = ⌊fr⌋ := pyIntTrunc_of_nonneg hfr.le
        have hkpos : 0 < pyIntTrunc fr := by
          rcases lt_or_eq_of_le (Int.floor_nonneg.mpr hfr.le) with h | h
          · rw [hkfl]; exact h
          · exact absurd (by rw [hkfl, ← h]) hk
        simp only [framesValue, seconds_to_timecode, tcHMS, if_neg hv, if_neg hk]
        refine ⟨Int.fmod_nonneg' _ hkpos, ?_, by simp [mkTC, List.append_assoc]⟩
        have h1 : (tcFields v fr).frames < pyIntTrunc fr := by
          exact Int.fmod_lt_of_pos _ hkpos
        have h2 : ((pyIntTrunc fr : ℤ) : ℚ) ≤ fr := by
          rw [hkfl]
          exact_mod_cast Int.floor_le fr
        calc ((tcFields v fr).frames : ℚ) < ((pyIntTrunc fr : ℤ) : ℚ) := by exact_mod_cast h1
          _ ≤ fr := h2

/-- C7 witness: seconds `3.5` at frame rate 30. -/
theorem C7_frames_range_witness :
    0 ≤ framesValue (some (7 / 2)) 30 ∧ ((framesValue (some (7 / 2)) 30 : ℚ) < 30) ∧
    seconds_to_timecode (some (7 / 2)) 30 =
      tcHMS (some (7 / 2)) 30 ++ ':' :: pyFmtInt 2 (framesValue (some (7 / 2)) 30) :=
  C7_frames_range (some (7 / 2)) 30 (by with_unfolding_all decide)

/- ## Claim C8: malformed-input defaults -/

/-- Decomposition of a length-4 list. -/
theorem list_length_eq_four {α : Type} {l : List α} (h : l.length = 4) :
    ∃ a b c d, l = [a, b, c, d] :=
  match l, h with
  | [a, b, c, d], _ => ⟨a, b, c, d, rfl⟩

/-- C8 counterexample.  `timecode_to_seconds` does raise for one family of
inputs: a well-formed timecode with `frame_rate = 0` reaches
`frames / frame_rate`, whose `ZeroDivisionError` is not caught by the
`except (ValueError, IndexError)` handler. -/
theorem C8_counterexample :
    timecode_to_seconds (some ("00:00:00:01".toList)) 0 = .error () := by
  with_unfolding_all decide

/-- C8 (amended).  With any nonzero frame rate `timecode_to_seconds` never
raises; every input failing the four-colon-separated-integer-fields test (or
a `None`/non-string input) yields `0.0`; `seconds_to_timecode` returns
`"00:00:00:00"` and `seconds_to_srt_timecode` returns `"00:00:00,000"` on
negative or `None`/non-numeric input. -/
theorem C8_defaults :
    (∀ (tc : Option (List Char)) (fr : ℚ), fr ≠ 0 →
      ∃ v, timecode_to_seconds tc fr = .ok v) ∧
    (∀ (cs : List Char) (fr : ℚ), wellFormedTC cs = false →
      timecode_to_seconds (some cs) fr = .ok 0) ∧
    timecode_to_seconds (some ("bad".toList)) 30 = .ok 0 ∧
    (∀ fr : ℚ, timecode_to_seconds none fr = .ok 0) ∧
    (∀ (t fr : ℚ), t < 0 → seconds_to_timecode (some t) fr = "00:00:00:00".toList) ∧
    (∀ fr : ℚ, seconds_to_timecode none fr = "00:00:00:00".toList) ∧
    (∀ t : ℚ, t < 0 → seconds_to_srt_timecode (some t) = "00:00:00,000".toList) ∧
    seconds_to_srt_timecode none = "00:00:00,000".toList := by
  refine ⟨?_, ?_, by with_unfolding_all decide, fun fr => rfl, ?_, fun fr => rfl, ?_, rfl⟩
  · intro tc fr hfr
    cases tc with
    | none => exact ⟨0, rfl⟩
    | some cs =>
      unfold timecode_to_seconds
      dsimp only
      by_cases hemp : cs = []
      · rw [if_pos hemp]; exact ⟨0, rfl⟩
      · rw [if_neg hemp]
        by_cases hlen : (splitOn ':' cs).length = 4
        · rw [if_pos hlen]
          rcases h0 : pyInt ((splitOn ':' cs).getD 0 []) with _ | v0
          · exact ⟨0, rfl⟩
          · rcases h1 : pyInt ((splitOn ':' cs).getD 1 []) with _ | v1
            · exact ⟨0, rfl⟩
            · rcases h2 : pyInt ((splitOn ':' cs).getD 2 []) with _ | v2
              · exact ⟨0, rfl⟩
              · rcases h3 : pyInt ((splitOn ':' cs).getD 3 []) with _ | v3
                · exact ⟨0, rfl⟩
                · refine ⟨(v0 : ℚ) * 3600 + (v1 : ℚ) * 60 + (v2 : ℚ) + (v3 : ℚ) / fr, ?_⟩
                  dsimp only
                  rw [if_neg hfr]
        · rw [if_neg hlen]; exact ⟨0, rfl⟩
  · intro cs fr hwf
    unfold wellFormedTC at hwf
    unfold timecode_to_seconds
    dsimp only
    by_cases hemp : cs = []
    · rw [if_pos hemp]
    · rw [if_neg hemp]
      by_cases hlen : (splitOn ':' cs).length = 4
      · rw [if_pos hlen]
        rw [Bool.and_eq_false_iff] at hwf
        rcases hwf with hwf | hwf
        · exact absurd hlen (by simpa using hwf)
        · obtain ⟨p, hp, hpn⟩ := List.all_eq_false.mp hwf
          have hpnone : pyInt p = none := Option.not_isSome_iff_eq_none.mp (by simpa using hpn)
          obtain ⟨p0, p1, p2, p3, hparts⟩ := list_length_eq_four hlen
          rw [hparts]
          simp only [List.getD_cons_zero, List.getD_cons_succ]
          rw [hparts] at hp
          simp only [List.mem_cons, List.not_mem_nil, or_false] at hp
          rcases h0 : pyInt p0 with _ | v0
          · rfl
          · rcases h1 : pyInt p1 with _ | v1
            · rfl
            · rcases h2 : pyInt p2 with _ | v2
              · rfl
              · rcases h3 : pyInt p3 with _ | v3
                · rfl
                · exfalso
                  rcases hp with rfl | rfl | rfl | rfl
                  · rw [h0] at hpnone; cases hpnone
                  · rw [h1] at hpnone; cases hpnone
                  · rw [h2] at hpnone; cases hpnone
                  · rw [h3] at hpnone; cases hpnone
      · rw [if_neg hlen]
  · intro t fr ht
    simp [seconds_to_timecode, if_pos ht, defaultTC]
  · intro t ht
    simp [seconds_to_srt_timecode, if_pos ht, defaultSRT]

/-- C8 witness: the amended no-raise guarantee at a malformed string and
frame rate 30, and the negative-seconds default at `-5`. -/
theorem C8_defaults_witness :
    (∃ v, timecode_to_seconds (some ("xx".toList)) 30 = .ok v) ∧
    seconds_to_timecode (some (-5)) 30 = "00:00:00:00".toList :=
  ⟨C8_defaults.1 (some ("xx".toList)) 30 (by with_unfolding_all decide),
   C8_defaults.2.2.2.2.1 (-5) 30 (by with_unfolding_all decide)⟩

/- ## Claim C9: SRT timecode shape -/

/-- C9 counterexample.  At `seconds = 0.9999` the milliseconds value
`round((seconds mod 1) * 1000)` is 1000, outside `[0, 999]`, and the
rendered field is the four-character `"1000"`. -/
theorem C9_counterexample :
    srtMs (some (9999 / 10000)) = 1000 ∧ ¬srtMs (some (9999 / 10000)) ≤ 999 ∧
    seconds_to_srt_timecode (some (9999 / 10000)) = "00:00:00,1000".toList := by
  with_unfolding_all decide

/-- C9 (amended).  For every non-negative seconds input the SRT timecode is
`HH:MM:SS,mmm` with fields zero-padded to widths 2, 2, 2, 3, and the
milliseconds value is `round((seconds mod 1) * 1000)`, which lies in
`[0, 1000]` — 1000 (rendered with four characters) occurs when the
fractional part rounds up. -/
theorem C9_srt_shape (t : ℚ) (ht : 0 ≤ t) :
    srtMs (some t) = pyround (Int.fract t * 1000) ∧
    0 ≤ srtMs (some t) ∧ srtMs (some t) ≤ 1000 ∧
    seconds_to_srt_timecode (some t) =
      pyFmtInt 2 (Int.fdiv (Int.fdiv (pyIntTrunc t) 60) 60) ++ ':' ::
        (pyFmtInt 2 (Int.fmod (Int.fdiv (pyIntTrunc t) 60) 60) ++ ':' ::
          (pyFmtInt 2 (Int.fmod (pyIntTrunc t) 60) ++ ',' :: pyFmtInt 3 (srtMs (some t)))) := by
  have hnneg : ¬t < 0 := not_lt.mpr ht
  have hmax : max 0 t = t := max_eq_right ht
  have hms : srtMs (some t) = pyround (Int.fract t * 1000) := by
    simp [srtMs, hnneg, hmax]
  refine ⟨hms, ?_, ?_, ?_⟩
  · rw [hms]
    exact pyround_nonneg (mul_nonneg (Int.fract_nonneg t) (by norm_num))
  · rw [hms]
    refine pyround_le (n := 1000) ?_
    have h1 := Int.fract_lt_one t
    push_cast
    nlinarith
  · unfold seconds_to_srt_timecode
    dsimp only
    rw [if_neg hnneg, hmax, hms]

/-- C9 witness: the amended shape at `seconds = 3.5`. -/
theorem C9_srt_shape_witness :
    srtMs (some (7 / 2)) = pyround (Int.fract (7 / 2 : ℚ) * 1000) ∧
    0 ≤ srtMs (some (7 / 2)) ∧ srtMs (some (7 / 2)) ≤ 1000 ∧
    seconds_to_srt_timecode (some (7 / 2)) =
      pyFmtInt 2 (Int.fdiv (Int.fdiv (pyIntTrunc (7 / 2)) 60) 60) ++ ':' ::
        (pyFmtInt 2 (Int.fmod (Int.fdiv (pyIntTrunc (7 / 2)) 60) 60) ++ ':' ::
          (pyFmtInt 2 (Int.fmod (pyIntTrunc (7 / 2)) 60) ++ ',' ::
            pyFmtInt 3 (srtMs (some (7 / 2))))) :=
  C9_srt_shape (7 / 2) (by with_unfolding_all decide)

/- ## Parser step lemmas -/

/-- When fewer than 8 bytes remain for a tag+size header the parser returns
the fixes collected so far. -/
theorem parse_gps_data_stop {data : List ℕ} {pos : ℕ} (acc : List GpsFix)
    (h : data.length < pos + 8) : parse_gps_data data pos acc = acc := by
  unfold parse_gps_data
  cases hf : data.length - pos with
  | zero => rfl
  | succ g =>
    simp only [parseGo]
    split_ifs <;> rfl

/-- A non-ASCII byte in the tag position stops the parser with the fixes
collected so far. -/
theorem parse_gps_data_stop_ascii {data : List ℕ} {pos : ℕ} (acc : List GpsFix)
    (h : (tagAt data pos).any (fun b => 128 ≤ b) = true) :
    parse_gps_data data pos acc = acc := by
  unfold parse_gps_data
  cases hf : data.length - pos with
  | zero => rfl
  | succ g =>
    simp only [parseGo]
    split_ifs <;> rfl

/-- Skipping step: at a readable header whose tag is ASCII and not `GPS5`,
the parser stops if the declared size is 0, and otherwise continues behind
the skipped payload at the next 4-byte boundary. -/
theorem parse_skip_step {data : List ℕ} {pos : ℕ} (acc : List GpsFix)
    (h8 : pos + 8 ≤ data.length)
    (hascii : (tagAt data pos).any (fun b => 128 ≤ b) = false)
    (htag : tagAt data pos ≠ gps5Tag) :
    parse_gps_data data pos acc =
      if readU32 data (pos + 4) = 0 then acc
      else parse_gps_data data (align4 (pos + 8 + readU32 data (pos + 4))) acc := by
  unfold parse_gps_data
  obtain ⟨g, hg⟩ : ∃ g, data.length - pos = g + 1 := ⟨data.length - pos - 1, by omega⟩
  rw [hg]
  simp only [parseGo]
  rw [if_neg (by omega : ¬data.length ≤ pos), if_neg (by omega : ¬data.length < pos + 4),
    if_neg (by simp [hascii]), if_neg (by omega : ¬data.length < pos + 8)]
  by_cases hz : readU32 data (pos + 4) = 0
  · rw [if_pos hz, if_pos hz]
  · rw [if_neg hz, if_neg hz, if_neg htag]
    have hal := le_align4 (pos + 8 + readU32 data (pos + 4))
    exact parseGo_fuel g _ data _ acc (by omega) (by omega)

/-- GPS5 step: at a readable `GPS5` header with nonzero declared size the
parser appends `min (size / 20) (available / 20)` decoded records and
continues at the next 4-byte boundary past them. -/
theorem parse_gps5_step {data : List ℕ} {pos : ℕ} (acc : List GpsFix)
    (h8 : pos + 8 ≤ data.length)
    (htag : tagAt data pos = gps5Tag)
    (hsz : readU32 data (pos + 4) ≠ 0) :
    parse_gps_data data pos acc =
      parse_gps_data data
        (align4 (pos + 8 +
          20 * min (readU32 data (pos + 4) / 20) ((data.length - (pos + 8)) / 20)))
        (acc ++ (List.range
            (min (readU32 data (pos + 4) / 20) ((data.length - (pos + 8)) / 20))).map
          (fun i => mkFix data (pos + 8 + 20 * i))) := by
  unfold parse_gps_data
  obtain ⟨g, hg⟩ : ∃ g, data.length - pos = g + 1 := ⟨data.length - pos - 1, by omega⟩
  rw [hg]
  simp only [parseGo]
  rw [if_neg (by omega : ¬data.length ≤ pos), if_neg (by omega : ¬data.length < pos + 4),
    if_neg (by rw [htag]; decide), if_neg (by omega : ¬data.length < pos + 8)]
  rw [if_neg hsz, if_pos htag]
  have hal := le_align4
    (pos + 8 + 20 * min (readU32 data (pos + 4) / 20) ((data.length - (pos + 8)) / 20))
  exact parseGo_fuel g _ data _ _ (by omega) (by omega)

/- ## Claim C4: GPS5 decoding and truncation safety -/

/-- C4.  Parsing the synthetic buffer with one `GPS5` tag of declared size 40
and a 40-byte payload yields exactly the two records decoded from the two
20-byte groups — both as explicit IEEE-754 values and as the structural
`mkFix` decodings at payload offsets 8 and 28; and for every buffer whose
remaining bytes cannot hold a full 8-byte tag+size header, the parser
returns exactly the fixes collected so far. -/
theorem C4_gps5_decode :
    parse_gps_data gps5Buf 0 [] =
      [⟨.finite 1, .finite 2, .finite (1 / 2), .finite (-1), .finite 0⟩,
       ⟨.finite 3, .finite (1 / 4), .finite 100, .finite (3 / 2), .finite (5 / 2)⟩] ∧
    parse_gps_data gps5Buf 0 [] = [mkFix gps5Buf 8, mkFix gps5Buf 28] ∧
    (∀ (data : List ℕ) (pos : ℕ) (acc : List GpsFix), data.length < pos + 8 →
      parse_gps_data data pos acc = acc) := by
  refine ⟨by with_unfolding_all decide, by with_unfolding_all decide, ?_⟩
  intro data pos acc h
  exact parse_gps_data_stop acc h

/-- C4 witness: the truncation clause on a 3-byte buffer with one fix
already collected. -/
theorem C4_gps5_decode_witness :
    parse_gps_data [1, 2, 3] 0 [mkFix [] 0] = [mkFix [] 0] :=
  C4_gps5_decode.2.2 [1, 2, 3] 0 [mkFix [] 0] (by decide)

/- ## Claim C5: unknown-tag skipping and termination -/

/-- C5 counterexample.  A non-`GPS5` tag with declared size 0 terminates
parsing (`if not size: break` — 0 is falsy), it is not skipped over: the
buffer holds an `ACCL` tag of size 0 followed by a well-formed `GPS5` block
with one record, yet parsing from the start collects nothing, while parsing
the same trailing block alone yields the record. -/
theorem C5_counterexample :
    parse_gps_data zeroSizeBuf 0 [] = [] ∧
    parse_gps_data (zeroSizeBuf.drop 8) 0 [] =
      [⟨.finite 1, .finite 2, .finite (1 / 2), .finite (-1), .finite 0⟩] := by
  with_unfolding_all decide

/-- C5 (amended).  At a readable non-`GPS5` ASCII tag the parser skips the
declared payload and realigns when the declared size is nonzero, but
terminates when the declared size is 0; it also terminates when fewer than
8 bytes remain or when the tag bytes are not ASCII — in every terminating
case returning exactly the fixes collected so far. -/
theorem C5_skip_tags :
    (∀ (data : List ℕ) (pos : ℕ) (acc : List GpsFix), pos + 8 ≤ data.length →
      (tagAt data pos).any (fun b => 128 ≤ b) = false →
      tagAt data pos ≠ gps5Tag →
      parse_gps_data data pos acc =
        if readU32 data (pos + 4) = 0 then acc
        else parse_gps_data data (align4 (pos + 8 + readU32 data (pos + 4))) acc) ∧
    (∀ (data : List ℕ) (pos : ℕ) (acc : List GpsFix), data.length < pos + 8 →
      parse_gps_data data pos acc = acc) ∧
    (∀ (data : List ℕ) (pos : ℕ) (acc : List GpsFix),
      (tagAt data pos).any (fun b => 128 ≤ b) = true →
      parse_gps_data data pos acc = acc) :=
  ⟨fun _ _ acc h8 hascii htag => parse_skip_step acc h8 hascii htag,
   fun _ _ acc h => parse_gps_data_stop acc h,
   fun _ _ acc h => parse_gps_data_stop_ascii acc h⟩

/-- C5 witness: the skip step on an `ACCL` block of size 4. -/
theorem C5_skip_tags_witness :
    parse_gps_data skipTagBuf 0 [] =
      if readU32 skipTagBuf 4 = 0 then []
      else parse_gps_data skipTagBuf (align4 (0 + 8 + readU32 skipTagBuf 4)) [] :=
  C5_skip_tags.1 skipTagBuf 0 [] (by decide) (by decide) (by decide)

/- ## Claim C10: GPS5 size not a multiple of 20 -/

/-- C10.  When a readable `GPS5` block declares a size `s` that is not a
multiple of 20 and the buffer holds `20 * (s / 20)` payload bytes, the
parser consumes exactly `s / 20` complete 20-byte records, rounds the
cursor up to the next multiple of 4 from that position, and re-enters the
loop there — the declared remainder `s mod 20` is not skipped and is
re-read as the next tag+size header. -/
theorem C10_gps5_remainder (data : List ℕ) (pos : ℕ) (acc : List GpsFix)
    (h8 : pos + 8 ≤ data.length)
    (htag : tagAt data pos = gps5Tag)
    (hmod : readU32 data (pos + 4) % 20 ≠ 0)
    (havail : pos + 8 + 20 * (readU32 data (pos + 4) / 20) ≤ data.length) :
    parse_gps_data data pos acc =
      parse_gps_data data (align4 (pos + 8 + 20 * (readU32 data (pos + 4) / 20)))
        (acc ++ (List.range (readU32 data (pos + 4) / 20)).map
          (fun i => mkFix data (pos + 8 + 20 * i))) := by
  have hsz : readU32 data (pos + 4) ≠ 0 := fun h => hmod (by rw [h])
  have hmin : min (readU32 data (pos + 4) / 20) ((data.length - (pos + 8)) / 20) =
      readU32 data (pos + 4) / 20 := by
    apply min_eq_left
    apply (Nat.le_div_iff_mul_le (by norm_num : 0 < 20)).mpr
    omega
  have := parse_gps5_step acc h8 htag hsz
  rw [hmin] at this
  exact this

/-- C10 witness: a `GPS5` block of declared size 24 over a 32-byte buffer —
one record is consumed and the cursor continues at byte 28, inside the
declared payload. -/
theorem C10_gps5_remainder_witness :
    parse_gps_data oddSizeBuf 0 [] =
      parse_gps_data oddSizeBuf (align4 (0 + 8 + 20 * (readU32 oddSizeBuf 4 / 20)))
        ([] ++ (List.range (readU32 oddSizeBuf 4 / 20)).map
          (fun i => mkFix oddSizeBuf (0 + 8 + 20 * i))) :=
  C10_gps5_remainder oddSizeBuf 0 [] (by decide) (by decide) (by decide) (by decide)
